import Mathlib

/-!
Shallow embedding of fedora-tagger's update job
(src/fedoratagger/lib/update.py): the three reconciliation passes
(import_koji_pkgs, update_summaries, import_meta_applications) and the
run controller (main), modelled over an explicit catalog store.

Modelling conventions:
- The SQLAlchemy session's staged contents are a list of Package records;
  inserts append, attribute mutation rewrites the record in place.
- Python exceptions are values of PyErr.  A pass returns PassResult: ok
  with the staged store and the pass's count, or err carrying both the
  exception and the store as staged at the moment of the raise (a Python
  exception does not roll the session back; durability is decided by
  main, which only commits on the fully successful path).
- kitchen's to_unicode is an external collaborator and is passed in as an
  arbitrary function tU : String -> String.
- The koji client session is a pair: the outcome of listPackages (which
  may raise) and the pure lookup getPackageConfig(tag, package_id).
- The yum library is Option YumQuery: none when "import yum" raises
  ImportError.  YumQuery holds the four package-list sections consulted
  by YumQuery.summary, in the priority order of update.py line 74.
- requests.get + yaml.load for the curated pass are a function from the
  url to a FetchOutcome: exn when either call raises (caught at lines
  172-175), or a parsed document.  A parsed document is either a proper
  list of name/summary records, or badAt rs: a value whose iteration
  yields the well-formed records rs and then an entry on which
  package['name'] (line 180) raises TypeError/KeyError outside any try.
-/

/-- A catalog entry: update.py manipulates only the name and summary
columns of the Package model. -/
structure Package where
  name : String
  summary : String
deriving Repr, DecidableEq

/-- The staged contents of the database session. -/
abbrev CatalogStore := List Package

/-- m.Package.by_name(SESSION, name): first record whose name matches
exactly; raises NoResultFound (here: none) when absent. -/
def Package.by_name (store : CatalogStore) (name : String) : Option Package :=
  store.find? (fun p => p.name == name)

/-- Python exceptions that update.py can raise or propagate. -/
inductive PyErr
  | importError
  | typeError
  | connectionError
deriving Repr, DecidableEq

/-- Result of one pass: ok (staged store, count) on normal return, or
err (exception, store staged at the raise point) when it raises. -/
inductive PassResult
  | ok (store : CatalogStore) (count : Nat)
  | err (e : PyErr) (store : CatalogStore)
deriving Repr, DecidableEq

/-- The staged store a pass leaves behind, raised or not. -/
def PassResult.store : PassResult → CatalogStore
  | .ok st _ => st
  | .err _ st => st

/-- One record of session.listPackages(). -/
structure KojiPackage where
  package_name : String
  package_id : Nat
deriving Repr, DecidableEq

/-- koji.ClientSession: listPackages may raise; getPackageConfig is a
lookup from (tag id, package id) to a tag status or None. -/
structure KojiSession where
  listing : Except PyErr (List KojiPackage)
  getPackageConfig : Nat → Nat → Option Unit

/-- update.py line 92: id of the el6-docs tag to bypass. -/
def tagbp : Nat := 230

/-- The loop of import_koji_pkgs (lines 95-107).  For each record: the
name is normalized with to_unicode; if getPackageConfig reports a
non-None tag status, the statement at lines 99-100 evaluates
log.info("...") % name, i.e. None % name, which raises TypeError before
the continue is reached; otherwise the record is inserted exactly when
by_name raises NoResultFound. -/
def koji_loop (tU : String → String) (cfg : Nat → Nat → Option Unit) :
    List KojiPackage → CatalogStore → Nat → PassResult
  | [], store, count => .ok store count
  | pkg :: rest, store, count =>
    let name := tU pkg.package_name
    match cfg tagbp pkg.package_id with
    | some _ => .err PyErr.typeError store
    | none =>
      match Package.by_name store name with
      | some _ => koji_loop tU cfg rest store count
      | none => koji_loop tU cfg rest (store ++ [⟨name, ""⟩]) (count + 1)

/-- import_koji_pkgs (lines 84-109): list the koji packages (may raise,
propagated) and reconcile them against the store. -/
def import_koji_pkgs (tU : String → String) (session : KojiSession)
    (store : CatalogStore) : PassResult :=
  match session.listing with
  | .error e => .err e store
  | .ok packages => koji_loop tU session.getPackageConfig packages store 0

/-- The four package-list sections of YumQuery (line 74), each a list of
(name, summary) records reusing Package. -/
structure YumQuery where
  installed : List Package
  available : List Package
  updates : List Package
  extras : List Package

/-- YumQuery.summary (lines 67-79): exact-name matches are collected
section by section in the fixed order installed, available, updates,
extras, and the first match's summary is returned; the empty string when
no section matches. -/
def YumQuery.summary (q : YumQuery) (name : String) : String :=
  match (q.installed ++ q.available ++ q.updates ++ q.extras).find?
      (fun p => p.name == name) with
  | some p => p.summary
  | none => ""

/-- get_yum_query (lines 48-58): re-raises the ImportError when yum is
missing and require is true; returns None (logging a warning) when yum is
missing and require is false. -/
def get_yum_query (require : Bool) (yum : Option YumQuery) :
    Except PyErr (Option YumQuery) :=
  match yum with
  | some q => Except.ok (some q)
  | none => if require then Except.error PyErr.importError else Except.ok none

/-- The filter of the backfill query (lines 125-126):
summary in [u'', u'(no summary)']. -/
def eligible (p : Package) : Bool :=
  p.summary == "" || p.summary == "(no summary)"

/-- The loop of update_summaries (lines 139-150) over the store.  Each
still-eligible record gets exactly one assignment: the to_unicode'd yum
summary when non-empty (truthy), counting one success, else the sentinel
'(no summary)'; after every assignment the loop breaks when
count > Neff, leaving the tail untouched. -/
def backfill_loop (tU : String → String) (yumq : YumQuery) (Neff : Nat) :
    List Package → Nat → List Package × Nat
  | [], count => ([], count)
  | p :: rest, count =>
    if eligible p then
      let s := tU (yumq.summary p.name)
      if s == "" then
        let p2 : Package := { p with summary := "(no summary)" }
        if count > Neff then (p2 :: rest, count)
        else
          let r2 := backfill_loop tU yumq Neff rest count
          (p2 :: r2.1, r2.2)
      else
        let p2 : Package := { p with summary := s }
        if count + 1 > Neff then (p2 :: rest, count + 1)
        else
          let r2 := backfill_loop tU yumq Neff rest (count + 1)
          (p2 :: r2.1, r2.2)
    else
      let r2 := backfill_loop tU yumq Neff rest count
      (p :: r2.1, r2.2)

/-- The backfill loop with the quota break removed: processes every
eligible record.  Reference definition used to state that the quota
never cuts a run short (N = 0, or too few successes to exceed N). -/
def backfillAll (tU : String → String) (yumq : YumQuery) :
    List Package → Nat → List Package × Nat
  | [], count => ([], count)
  | p :: rest, count =>
    if eligible p then
      let s := tU (yumq.summary p.name)
      if s == "" then
        let r2 := backfillAll tU yumq rest count
        ({ p with summary := "(no summary)" } :: r2.1, r2.2)
      else
        let r2 := backfillAll tU yumq rest (count + 1)
        ({ p with summary := s } :: r2.1, r2.2)
    else
      let r2 := backfillAll tU yumq rest count
      (p :: r2.1, r2.2)

/-- update_summaries (lines 112-152).  Line 119 calls get_yum_query()
with require defaulting to True, so a missing yum library raises
ImportError out of the pass; the branch at lines 121-123 (log a warning
and return when the query object is None) is unreachable with that
default.  Otherwise: N = 0 is replaced by the count of eligible records
(lines 132-134) and the loop runs with count starting at 0. -/
def update_summaries (tU : String → String) (yum : Option YumQuery)
    (N : Nat) (store : CatalogStore) : PassResult :=
  match get_yum_query true yum with
  | .error e => .err e store
  | .ok none => .ok store 0
  | .ok (some yumq) =>
    let total := store.countP eligible
    let Neff := if N = 0 then total else N
    let r := backfill_loop tU yumq Neff store 0
    .ok r.1 r.2

/-- One record of the curated applications document. -/
structure CuratedRecord where
  name : String
  summary : String
deriving Repr, DecidableEq

/-- What yaml.load produced when it did not raise: a proper list of
name/summary records, or (badAt rs) a value whose iteration yields the
well-formed records rs and then raises at package['name'] (line 180) —
e.g. a scalar document is badAt [], a list with a malformed entry after
rs is badAt rs. -/
inductive YamlDoc
  | records (rs : List CuratedRecord)
  | badAt (rs : List CuratedRecord)
deriving Repr, DecidableEq

/-- Outcome of requests.get(url) followed by yaml.load(response.text):
exn when either raised (caught at lines 172-175), else the parsed
document. -/
inductive FetchOutcome
  | exn
  | parsed (doc : YamlDoc)
deriving Repr, DecidableEq

/-- The loop of import_meta_applications (lines 178-187): insert each
record, name and summary verbatim (no to_unicode), exactly when by_name
raises NoResultFound. -/
def meta_loop : List CuratedRecord → CatalogStore → Nat → CatalogStore × Nat
  | [], store, count => (store, count)
  | r :: rest, store, count =>
    match Package.by_name store r.name with
    | some _ => meta_loop rest store count
    | none => meta_loop rest (store ++ [⟨r.name, r.summary⟩]) (count + 1)

/-- import_meta_applications (lines 155-189): a falsy url (None or the
empty string, line 164) bails out; a raise inside fetch/parse is caught
and the pass returns (lines 169-175); a parsed record list is imported;
a parsed malformed value raises TypeError out of the loop, after the
well-formed records preceding the bad entry were staged. -/
def import_meta_applications (url : Option String)
    (fetch : String → FetchOutcome) (store : CatalogStore) : PassResult :=
  match url with
  | none => .ok store 0
  | some u =>
    if u == "" then .ok store 0
    else
      match fetch u with
      | .exn => .ok store 0
      | .parsed (.records rs) =>
        let r := meta_loop rs store 0
        .ok r.1 r.2
      | .parsed (.badAt rs) =>
        let r := meta_loop rs store 0
        .err PyErr.typeError r.1

/-- main (lines 209-216): the three passes in order, then SESSION.commit().
Returns the durable store (the initial one unless commit is reached) and
the exception that propagated out, if any. -/
def main' (tU : String → String) (session : KojiSession)
    (yum : Option YumQuery) (N : Nat) (url : Option String)
    (fetch : String → FetchOutcome) (store : CatalogStore) :
    CatalogStore × Option PyErr :=
  match import_koji_pkgs tU session store with
  | .err e _ => (store, some e)
  | .ok st1 _ =>
    match update_summaries tU yum N st1 with
    | .err e _ => (store, some e)
    | .ok st2 _ =>
      match import_meta_applications url fetch st2 with
      | .err e _ => (store, some e)
      | .ok st3 _ => (st3, none)

/-- Number of positions at which the new store differs from the old one
(a record counted here was mutated by the run). -/
def changedCount : List Package → List Package → Nat
  | p :: ps, q :: qs => (if p = q then 0 else 1) + changedCount ps qs
  | _, _ => 0

/-- Number of positions at which the new store differs from the old one
and the new summary is not the sentinel: an upper approximation of the
successful real-summary enrichments visible in the store. -/
def realChanges : List Package → List Package → Nat
  | p :: ps, q :: qs =>
    (if p.summary ≠ q.summary ∧ q.summary ≠ "(no summary)" then 1 else 0) +
      realChanges ps qs
  | _, _ => 0

/-- Concrete fixture: a yum index with one installed package. -/
def yumA : YumQuery := ⟨[⟨"a", "SumA"⟩], [], [], []⟩

/-- Concrete fixture: a yum index with empty sections. -/
def emptyYum : YumQuery := ⟨[], [], [], []⟩

/-- Concrete fixture: a koji session listing one untagged package. -/
def sessionA : KojiSession := ⟨.ok [⟨"a", 1⟩], fun _ _ => none⟩

theorem by_name_eq_none_iff (store : CatalogStore) (n : String) :
    Package.by_name store n = none ↔ ∀ p ∈ store, p.name ≠ n := by
  simp [Package.by_name, List.find?_eq_none]

theorem by_name_append_left (store t : CatalogStore) (n : String) (p : Package)
    (h : Package.by_name store n = some p) :
    Package.by_name (store ++ t) n = some p := by
  unfold Package.by_name at *
  rw [List.find?_append, h]
  rfl

theorem by_name_append_self (store : CatalogStore) (n s : String)
    (h : Package.by_name store n = none) :
    Package.by_name (store ++ [⟨n, s⟩]) n = some ⟨n, s⟩ := by
  unfold Package.by_name at *
  rw [List.find?_append, h]
  simp [List.find?]

theorem koji_loop_extends (tU : String → String) (cfg : Nat → Nat → Option Unit)
    (l : List KojiPackage) : ∀ (st : CatalogStore) (c : Nat),
    ∃ t, (koji_loop tU cfg l st c).store = st ++ t := by
  induction l with
  | nil => intro st c; exact ⟨[], by simp [koji_loop, PassResult.store]⟩
  | cons pkg rest ih =>
    intro st c
    cases hcfg : cfg tagbp pkg.package_id with
    | some v => exact ⟨[], by simp [koji_loop, hcfg, PassResult.store]⟩
    | none =>
      cases hbn : Package.by_name st (tU pkg.package_name) with
      | some p => simpa [koji_loop, hcfg, hbn] using ih st c
      | none =>
        obtain ⟨t, ht⟩ := ih (st ++ [⟨tU pkg.package_name, ""⟩]) (c + 1)
        exact ⟨⟨tU pkg.package_name, ""⟩ :: t, by
          simp [koji_loop, hcfg, hbn, ht]⟩

theorem koji_loop_store_idem (tU : String → String)
    (cfg : Nat → Nat → Option Unit) (l : List KojiPackage) :
    ∀ (st : CatalogStore) (c c2 : Nat),
    (koji_loop tU cfg l ((koji_loop tU cfg l st c).store) c2).store
      = (koji_loop tU cfg l st c).store := by
  induction l with
  | nil => intro st c c2; simp [koji_loop, PassResult.store]
  | cons pkg rest ih =>
    intro st c c2
    cases hcfg : cfg tagbp pkg.package_id with
    | some v => simp [koji_loop, hcfg, PassResult.store]
    | none =>
      cases hbn : Package.by_name st (tU pkg.package_name) with
      | some p =>
        obtain ⟨t, ht⟩ := koji_loop_extends tU cfg rest st c
        have hbn2 : Package.by_name ((koji_loop tU cfg rest st c).store)
            (tU pkg.package_name) = some p := by
          rw [ht]; exact by_name_append_left _ _ _ _ hbn
        simp only [koji_loop, hcfg, hbn]
        simp only [koji_loop, hcfg, hbn2]
        exact ih st c c2
      | none =>
        obtain ⟨t, ht⟩ :=
          koji_loop_extends tU cfg rest (st ++ [⟨tU pkg.package_name, ""⟩]) (c + 1)
        have hsome : Package.by_name (st ++ [⟨tU pkg.package_name, ""⟩])
            (tU pkg.package_name) = some ⟨tU pkg.package_name, ""⟩ :=
          by_name_append_self st _ _ hbn
        have hbn2 : Package.by_name
            ((koji_loop tU cfg rest (st ++ [⟨tU pkg.package_name, ""⟩]) (c + 1)).store)
            (tU pkg.package_name) = some ⟨tU pkg.package_name, ""⟩ := by
          rw [ht]; exact by_name_append_left _ _ _ _ hsome
        simp only [koji_loop, hcfg, hbn]
        simp only [koji_loop, hcfg, hbn2]
        exact ih (st ++ [⟨tU pkg.package_name, ""⟩]) (c + 1) c2

theorem koji_loop_mem (tU : String → String) (cfg : Nat → Nat → Option Unit)
    (l : List KojiPackage) : ∀ (st : CatalogStore) (c : Nat) (p : Package),
    p ∈ (koji_loop tU cfg l st c).store →
    p ∈ st ∨ ∃ r, r ∈ l ∧ cfg tagbp r.package_id = none ∧
      p = ⟨tU r.package_name, ""⟩ := by
  induction l with
  | nil => intro st c p h; left; simpa [koji_loop, PassResult.store] using h
  | cons pkg rest ih =>
    intro st c p h
    cases hcfg : cfg tagbp pkg.package_id with
    | some v => left; simpa [koji_loop, hcfg, PassResult.store] using h
    | none =>
      cases hbn : Package.by_name st (tU pkg.package_name) with
      | some q =>
        rcases ih st c p (by simpa [koji_loop, hcfg, hbn] using h) with
          h1 | ⟨r, hr, hcfgr, hp⟩
        · left; exact h1
        · exact Or.inr ⟨r, List.mem_cons_of_mem _ hr, hcfgr, hp⟩
      | none =>
        rcases ih (st ++ [⟨tU pkg.package_name, ""⟩]) (c + 1) p
            (by simpa [koji_loop, hcfg, hbn] using h) with
          h1 | ⟨r, hr, hcfgr, hp⟩
        · rcases List.mem_append.mp h1 with h2 | h2
          · left; exact h2
          · exact Or.inr ⟨pkg, List.mem_cons_self _ _, hcfg,
              List.mem_singleton.mp h2⟩
        · exact Or.inr ⟨r, List.mem_cons_of_mem _ hr, hcfgr, hp⟩

theorem koji_loop_nodup (tU : String → String) (cfg : Nat → Nat → Option Unit)
    (l : List KojiPackage) : ∀ (st : CatalogStore) (c : Nat),
    (st.map Package.name).Nodup →
    (((koji_loop tU cfg l st c).store).map Package.name).Nodup := by
  induction l with
  | nil => intro st c h; simpa [koji_loop, PassResult.store] using h
  | cons pkg rest ih =>
    intro st c h
    cases hcfg : cfg tagbp pkg.package_id with
    | some v => simpa [koji_loop, hcfg, PassResult.store] using h
    | none =>
      cases hbn : Package.by_name st (tU pkg.package_name) with
      | some q => simpa [koji_loop, hcfg, hbn] using ih st c h
      | none =>
        have hnotin : tU pkg.package_name ∉ st.map Package.name := by
          intro hmem
          obtain ⟨q, hq, hqe⟩ := List.mem_map.mp hmem
          exact ((by_name_eq_none_iff st _).mp hbn q hq) hqe
        have h2 : ((st ++ [(⟨tU pkg.package_name, ""⟩ : Package)]).map
            Package.name).Nodup := by
          simp [List.nodup_append, h, hnotin]
        simpa [koji_loop, hcfg, hbn] using
          ih (st ++ [⟨tU pkg.package_name, ""⟩]) (c + 1) h2

theorem meta_loop_extends (rs : List CuratedRecord) :
    ∀ (st : CatalogStore) (c : Nat), ∃ t, (meta_loop rs st c).1 = st ++ t := by
  induction rs with
  | nil => intro st c; exact ⟨[], by simp [meta_loop]⟩
  | cons r rest ih =>
    intro st c
    cases hbn : Package.by_name st r.name with
    | some p => simpa [meta_loop, hbn] using ih st c
    | none =>
      obtain ⟨t, ht⟩ := ih (st ++ [⟨r.name, r.summary⟩]) (c + 1)
      exact ⟨⟨r.name, r.summary⟩ :: t, by simp [meta_loop, hbn, ht]⟩

theorem meta_loop_mem (rs : List CuratedRecord) :
    ∀ (st : CatalogStore) (c : Nat) (p : Package),
    p ∈ (meta_loop rs st c).1 →
    p ∈ st ∨ ∃ r, r ∈ rs ∧ p = ⟨r.name, r.summary⟩ := by
  induction rs with
  | nil => intro st c p h; left; simpa [meta_loop] using h
  | cons r rest ih =>
    intro st c p h
    cases hbn : Package.by_name st r.name with
    | some q =>
      rcases ih st c p (by simpa [meta_loop, hbn] using h) with
        h1 | ⟨r2, hr2, hp⟩
      · left; exact h1
      · exact Or.inr ⟨r2, List.mem_cons_of_mem _ hr2, hp⟩
    | none =>
      rcases ih (st ++ [⟨r.name, r.summary⟩]) (c + 1) p
          (by simpa [meta_loop, hbn] using h) with h1 | ⟨r2, hr2, hp⟩
      · rcases List.mem_append.mp h1 with h2 | h2
        · left; exact h2
        · exact Or.inr ⟨r, List.mem_cons_self _ _, List.mem_singleton.mp h2⟩
      · exact Or.inr ⟨r2, List.mem_cons_of_mem _ hr2, hp⟩

theorem meta_loop_nodup (rs : List CuratedRecord) :
    ∀ (st : CatalogStore) (c : Nat), (st.map Package.name).Nodup →
    (((meta_loop rs st c).1).map Package.name).Nodup := by
  induction rs with
  | nil => intro st c h; simpa [meta_loop] using h
  | cons r rest ih =>
    intro st c h
    cases hbn : Package.by_name st r.name with
    | some q => simpa [meta_loop, hbn] using ih st c h
    | none =>
      have hnotin : r.name ∉ st.map Package.name := by
        intro hmem
        obtain ⟨q, hq, hqe⟩ := List.mem_map.mp hmem
        exact ((by_name_eq_none_iff st _).mp hbn q hq) hqe
      have h2 : ((st ++ [(⟨r.name, r.summary⟩ : Package)]).map
          Package.name).Nodup := by
        simp [List.nodup_append, h, hnotin]
      simpa [meta_loop, hbn] using ih (st ++ [⟨r.name, r.summary⟩]) (c + 1) h2

theorem realChanges_self (l : List Package) : realChanges l l = 0 := by
  induction l with
  | nil => simp [realChanges]
  | cons p rest ih => simp [realChanges, ih]

theorem backfill_names (tU : String → String) (yumq : YumQuery) (Neff : Nat)
    (l : List Package) : ∀ c : Nat,
    ((backfill_loop tU yumq Neff l c).1.map Package.name) =
      l.map Package.name := by
  induction l with
  | nil => intro c; simp [backfill_loop]
  | cons p rest ih =>
    intro c
    by_cases he : eligible p
    · by_cases hs : tU (yumq.summary p.name) == ""
      · by_cases hc : c > Neff
        · simp [backfill_loop, he, hs, hc]
        · simp [backfill_loop, he, hs, hc, ih c]
      · by_cases hc : c + 1 > Neff
        · simp [backfill_loop, he, hs, hc]
        · simp [backfill_loop, he, hs, hc, ih (c + 1)]
    · simp [backfill_loop, he, ih c]

theorem backfill_untouched (tU : String → String) (yumq : YumQuery)
    (Neff : Nat) (l : List Package) : ∀ (c i : Nat) (p0 : Package),
    l[i]? = some p0 → eligible p0 = false →
    ((backfill_loop tU yumq Neff l c).1)[i]? = some p0 := by
  induction l with
  | nil => intro c i p0 h _; simp at h
  | cons p rest ih =>
    intro c i p0 h hne
    cases i with
    | zero =>
      simp at h
      subst h
      by_cases he : eligible p
      · simp [hne] at he
      · simp [backfill_loop, he]
    | succ i =>
      simp at h
      by_cases he : eligible p
      · by_cases hs : tU (yumq.summary p.name) == ""
        · by_cases hc : c > Neff
          · simp [backfill_loop, he, hs, hc, h]
          · simp [backfill_loop, he, hs, hc]; exact ih c i p0 h hne
        · by_cases hc : c + 1 > Neff
          · simp [backfill_loop, he, hs, hc, h]
          · simp [backfill_loop, he, hs, hc]; exact ih (c + 1) i p0 h hne
      · simp [backfill_loop, he]; exact ih c i p0 h hne

theorem backfill_count_le (tU : String → String) (yumq : YumQuery)
    (Neff : Nat) (l : List Package) : ∀ c : Nat, c ≤ Neff →
    (backfill_loop tU yumq Neff l c).2 ≤ Neff + 1 := by
  induction l with
  | nil => intro c h; simp [backfill_loop]; omega
  | cons p rest ih =>
    intro c h
    by_cases he : eligible p
    · by_cases hs : tU (yumq.summary p.name) == ""
      · by_cases hc : c > Neff
        · simp [backfill_loop, he, hs, hc]; omega
        · simpa [backfill_loop, he, hs, hc] using ih c h
      · by_cases hc : c + 1 > Neff
        · simp [backfill_loop, he, hs, hc]; omega
        · have h2 : c + 1 ≤ Neff := by omega
          simpa [backfill_loop, he, hs, hc] using ih (c + 1) h2
    · simpa [backfill_loop, he] using ih c h

theorem backfill_no_break (tU : String → String) (yumq : YumQuery)
    (Neff : Nat) (l : List Package) : ∀ c : Nat,
    (backfill_loop tU yumq Neff l c).2 ≤ Neff →
    backfill_loop tU yumq Neff l c = backfillAll tU yumq l c := by
  induction l with
  | nil => intro c _; simp [backfill_loop, backfillAll]
  | cons p rest ih =>
    intro c h
    by_cases he : eligible p
    · by_cases hs : tU (yumq.summary p.name) == ""
      · by_cases hc : c > Neff
        · exfalso; simp [backfill_loop, he, hs, hc] at h; omega
        · have h2 : (backfill_loop tU yumq Neff rest c).2 ≤ Neff := by
            simpa [backfill_loop, he, hs, hc] using h
          simp [backfill_loop, backfillAll, he, hs, hc, ih c h2]
      · by_cases hc : c + 1 > Neff
        · exfalso; simp [backfill_loop, he, hs, hc] at h; omega
        · have h2 : (backfill_loop tU yumq Neff rest (c + 1)).2 ≤ Neff := by
            simpa [backfill_loop, he, hs, hc] using h
          simp [backfill_loop, backfillAll, he, hs, hc, ih (c + 1) h2]
    · have h2 : (backfill_loop tU yumq Neff rest c).2 ≤ Neff := by
        simpa [backfill_loop, he] using h
      simp [backfill_loop, backfillAll, he, ih c h2]

theorem backfill_succ_le (tU : String → String) (yumq : YumQuery)
    (Neff : Nat) (l : List Package) : ∀ c : Nat,
    (backfill_loop tU yumq Neff l c).2 ≤
      c + l.countP (fun p => eligible p && !(tU (yumq.summary p.name) == "")) := by
  induction l with
  | nil => intro c; simp [backfill_loop]
  | cons p rest ih =>
    intro c
    by_cases he : eligible p
    · by_cases hs : tU (yumq.summary p.name) == ""
      · by_cases hc : c > Neff
        · simp [backfill_loop, he, hs, hc, List.countP_cons]
        · have := ih c
          simp [backfill_loop, he, hs, hc, List.countP_cons]
          omega
      · by_cases hc : c + 1 > Neff
        · simp [backfill_loop, he, hs, hc, List.countP_cons]
        · have := ih (c + 1)
          simp [backfill_loop, he, hs, hc, List.countP_cons] at *
          omega
    · have := ih c
      simp [backfill_loop, he, List.countP_cons] at *
      omega

theorem backfill_elig_le (tU : String → String) (yumq : YumQuery)
    (Neff : Nat) (l : List Package) : ∀ c : Nat,
    (backfill_loop tU yumq Neff l c).2 ≤ c + l.countP eligible := by
  induction l with
  | nil => intro c; simp [backfill_loop]
  | cons p rest ih =>
    intro c
    by_cases he : eligible p
    · by_cases hs : tU (yumq.summary p.name) == ""
      · by_cases hc : c > Neff
        · simp [backfill_loop, he, hs, hc, List.countP_cons]
        · have := ih c
          simp [backfill_loop, he, hs, hc, List.countP_cons] at *
          omega
      · by_cases hc : c + 1 > Neff
        · simp [backfill_loop, he, hs, hc, List.countP_cons]
        · have := ih (c + 1)
          simp [backfill_loop, he, hs, hc, List.countP_cons] at *
          omega
    · have := ih c
      simp [backfill_loop, he, List.countP_cons] at *
      omega

theorem backfill_realChanges (tU : String → String) (yumq : YumQuery)
    (Neff : Nat) (l : List Package) : ∀ c : Nat,
    c + realChanges l (backfill_loop tU yumq Neff l c).1 ≤
      (backfill_loop tU yumq Neff l c).2 := by
  induction l with
  | nil => intro c; simp [backfill_loop, realChanges]
  | cons p rest ih =>
    intro c
    by_cases he : eligible p
    · by_cases hs : tU (yumq.summary p.name) == ""
      · by_cases hc : c > Neff
        · simp [backfill_loop, he, hs, hc, realChanges, realChanges_self]
        · have := ih c
          simp [backfill_loop, he, hs, hc, realChanges] at *
          omega
      · by_cases hc : c + 1 > Neff
        · simp [backfill_loop, he, hs, hc, realChanges, realChanges_self]
          split <;> omega
        · have := ih (c + 1)
          simp [backfill_loop, he, hs, hc, realChanges] at *
          split <;> omega
    · have := ih c
      simp [backfill_loop, he, realChanges] at *
      omega

/-- C1: the spec says that when the yum library cannot be imported,
update_summaries logs and returns without modifying any Package and
without raising.  In the code, line 119 calls get_yum_query() with
require defaulting to True, which re-raises the ImportError, so the pass
raises for every store and quota and the run aborts before commit; the
graceful branch at lines 121-123 is unreachable with that default.  This
theorem evaluates the code at the failing input (yum unavailable). -/
theorem C1_yum_unavailable_raises (tU : String → String) (N : Nat)
    (store : CatalogStore) :
    update_summaries tU none N store = .err PyErr.importError store := rfl

/-- C2: the spec says a bypass-tagged record is skipped entirely and the
pass continues with the remaining records.  In the code, the skip branch
first evaluates log.info("...") % name (lines 99-100), which is
None % name and raises TypeError, so the pass aborts at the first
bypass-tagged record: here the tagged record "foo" causes the raise and
the following untagged record "bar" is never imported. -/
theorem C2_bypass_tag_raises :
    import_koji_pkgs id
      ⟨.ok [⟨"foo", 1⟩, ⟨"bar", 2⟩], fun _ i => if i = 1 then some () else none⟩
      [] = .err PyErr.typeError [] := by decide

/-- C3 counterexample: with quota N = 1 and three eligible packages whose
yum lookups all fail, update_summaries assigns the sentinel to all three
records — three mutated Packages, exceeding N + 1 = 2 — so a run does
not touch at most N + 1 Packages when sentinel assignments are counted. -/
theorem C3_counterexample :
    update_summaries id (some emptyYum) 1
        [⟨"a", ""⟩, ⟨"b", ""⟩, ⟨"c", ""⟩] =
      .ok [⟨"a", "(no summary)"⟩, ⟨"b", "(no summary)"⟩,
           ⟨"c", "(no summary)"⟩] 0 ∧
    changedCount [⟨"a", ""⟩, ⟨"b", ""⟩, ⟨"c", ""⟩]
        [⟨"a", "(no summary)"⟩, ⟨"b", "(no summary)"⟩,
         ⟨"c", "(no summary)"⟩] = 3 ∧
    ¬ (3 ≤ 1 + 1) := ⟨by decide, by decide, by decide⟩

/-- C3 amended: for quota N ≥ 1, a run of update_summaries makes at most
N + 1 successful real-summary assignments: the returned success count is
at most N + 1 and at most N + 1 store positions change to a non-sentinel
value.  Sentinel assignments are not bounded by the quota. -/
theorem C3_success_bound (tU : String → String) (yumq : YumQuery) (N : Nat)
    (store st : CatalogStore) (c : Nat) (hN : 1 ≤ N)
    (h : update_summaries tU (some yumq) N store = .ok st c) :
    c ≤ N + 1 ∧ realChanges store st ≤ N + 1 := by
  have hN0 : ¬ N = 0 := by omega
  simp [update_summaries, get_yum_query, hN0] at h
  obtain ⟨h1, h2⟩ := h
  have hle := backfill_count_le tU yumq N store 0 (by omega)
  have hrc := backfill_realChanges tU yumq N store 0
  rw [h2] at hle
  rw [h1, h2] at hrc
  exact ⟨hle, by omega⟩

theorem C3_success_bound_witness :
    update_summaries id (some yumA) 1 [⟨"a", ""⟩] = .ok [⟨"a", "SumA"⟩] 1 ∧
    1 ≤ 1 + 1 ∧ realChanges [⟨"a", ""⟩] [⟨"a", "SumA"⟩] ≤ 1 + 1 := by
  have h := C3_success_bound id yumA 1 [⟨"a", ""⟩] [⟨"a", "SumA"⟩] 1
    (by decide) (by decide)
  exact ⟨by decide, h.1, h.2⟩

/-- C4 counterexample: with the URL present and the fetched text parsing
(via yaml.load, which does not raise) to a value that is not a list of
name/summary records, the curated pass raises TypeError at line 180
rather than logging and returning, and a run whose first pass staged an
insert commits nothing — refuting "if the fetch or parse fails for any
reason, including a malformed document, it ... returns without raising
... so the run still commits what the earlier passes staged". -/
theorem C4_counterexample :
    import_meta_applications (some "u") (fun _ => .parsed (.badAt [])) [] =
      .err PyErr.typeError [] ∧
    main' id ⟨.ok [⟨"foo", 1⟩], fun _ _ => none⟩ (some emptyYum) 1
        (some "u") (fun _ => .parsed (.badAt [])) [] =
      ([], some PyErr.typeError) := ⟨by decide, by decide⟩

/-- C4 amended: an absent URL makes the curated pass a no-op, and an
exception raised inside the fetch or the yaml parse is caught, logged,
and turned into a no-op return; but a document that yaml-parses to a
value that is not a list of name/summary records raises TypeError out of
the pass (after staging the well-formed records preceding the bad entry),
aborting the run before commit. -/
theorem C4_error_policy (fetch : String → FetchOutcome) (store : CatalogStore)
    (u : String) (rs : List CuratedRecord) :
    (import_meta_applications none fetch store = .ok store 0) ∧
    (fetch u = .exn →
      import_meta_applications (some u) fetch store = .ok store 0) ∧
    (¬ u = "" → fetch u = .parsed (.badAt rs) →
      import_meta_applications (some u) fetch store =
        .err PyErr.typeError (meta_loop rs store 0).1) := by
  refine ⟨rfl, ?_, ?_⟩
  · intro h
    by_cases hu : u == ""
    · simp [import_meta_applications, hu]
    · simp [import_meta_applications, hu, h]
  · intro hu h
    have hu2 : (u == "") = false := by simpa using hu
    simp [import_meta_applications, hu2, h]

theorem C4_error_policy_witness :
    (import_meta_applications (some "u") (fun _ => .exn) [] = .ok [] 0) ∧
    (import_meta_applications (some "u")
        (fun _ => FetchOutcome.parsed (.badAt [⟨"x", "sx"⟩])) [] =
      .err PyErr.typeError (meta_loop [⟨"x", "sx"⟩] [] 0).1) := by
  constructor
  · exact (C4_error_policy (fun _ => .exn) [] "u" []).2.1 rfl
  · exact (C4_error_policy (fun _ => FetchOutcome.parsed (.badAt [⟨"x", "sx"⟩]))
      [] "u" [⟨"x", "sx"⟩]).2.2 (by decide) rfl

/-- C5: quota semantics of update_summaries: the returned count is
bounded by the number of eligible packages whose yum lookup is non-empty
(only successful enrichments are counted, sentinel assignments are not);
with N ≥ 1 the count never exceeds N + 1 (the loop stops only once the
count exceeds N, allowing up to N + 1 successes); if the count never
exceeded N the loop ran to completion, equalling the quota-free backfill
of every selected package; and N = 0 means no limit: the run always
equals the quota-free backfill. -/
theorem C5_quota_semantics (tU : String → String) (yumq : YumQuery) (N : Nat)
    (store st : CatalogStore) (c : Nat)
    (h : update_summaries tU (some yumq) N store = .ok st c) :
    c ≤ store.countP
        (fun p => eligible p && !(tU (yumq.summary p.name) == "")) ∧
    (1 ≤ N → c ≤ N + 1) ∧
    (1 ≤ N → c ≤ N → (st, c) = backfillAll tU yumq store 0) ∧
    (N = 0 → (st, c) = backfillAll tU yumq store 0) := by
  by_cases hN0 : N = 0
  · subst hN0
    simp [update_summaries, get_yum_query] at h
    obtain ⟨h1, h2⟩ := h
    have hsucc := backfill_succ_le tU yumq (store.countP eligible) store 0
    have helig := backfill_elig_le tU yumq (store.countP eligible) store 0
    have heq := backfill_no_break tU yumq (store.countP eligible) store 0
      (by omega)
    refine ⟨?_, ?_, ?_, ?_⟩
    · rw [h2] at hsucc; omega
    · intro hN; omega
    · intro hN; omega
    · intro _
      rw [← h1, ← h2, ← heq]
  · simp [update_summaries, get_yum_query, hN0] at h
    obtain ⟨h1, h2⟩ := h
    refine ⟨?_, ?_, ?_, ?_⟩
    · have hsucc := backfill_succ_le tU yumq N store 0
      rw [h2] at hsucc; omega
    · intro _
      have hle := backfill_count_le tU yumq N store 0 (by omega)
      rw [h2] at hle; exact hle
    · intro _ hc
      have heq := backfill_no_break tU yumq N store 0 (by rw [h2]; exact hc)
      rw [← h1, ← h2, ← heq]
    · intro h0; exact absurd h0 hN0

theorem C5_quota_semantics_witness :
    update_summaries id (some yumA) 5 [⟨"a", ""⟩] = .ok [⟨"a", "SumA"⟩] 1 ∧
    1 ≤ 5 + 1 ∧
    (([⟨"a", "SumA"⟩], 1) : List Package × Nat) =
      backfillAll id yumA [⟨"a", ""⟩] 0 := by
  have h := C5_quota_semantics id yumA 5 [⟨"a", ""⟩] [⟨"a", "SumA"⟩] 1
    (by decide)
  exact ⟨by decide, h.2.1 (by decide), h.2.2.1 (by decide) (by decide)⟩

/-- C6: monotonic enrichment: the two import passes never mutate an
existing Package (the starting store is preserved verbatim as a prefix of
the resulting store, whether the pass returned or raised), and
update_summaries leaves every record whose summary is neither the empty
string nor the sentinel "(no summary)" exactly as it was — only records
selected by the eligibility filter are ever assigned. -/
theorem C6_monotonic_summaries (tU : String → String) (session : KojiSession)
    (url : Option String) (fetch : String → FetchOutcome)
    (yum : Option YumQuery) (N : Nat) (store : CatalogStore) :
    (∃ t, (import_koji_pkgs tU session store).store = store ++ t) ∧
    (∃ t, (import_meta_applications url fetch store).store = store ++ t) ∧
    (∀ (i : Nat) (p : Package), store[i]? = some p → p.summary ≠ "" →
      p.summary ≠ "(no summary)" →
      ((update_summaries tU yum N store).store)[i]? = some p) := by
  refine ⟨?_, ?_, ?_⟩
  · cases hl : session.listing with
    | error e => exact ⟨[], by simp [import_koji_pkgs, hl, PassResult.store]⟩
    | ok packages =>
      simpa [import_koji_pkgs, hl] using
        koji_loop_extends tU session.getPackageConfig packages store 0
  · cases url with
    | none => exact ⟨[], by simp [import_meta_applications, PassResult.store]⟩
    | some u =>
      by_cases hu : u == ""
      · exact ⟨[], by simp [import_meta_applications, hu, PassResult.store]⟩
      · cases hf : fetch u with
        | exn =>
          exact ⟨[], by simp [import_meta_applications, hu, hf,
            PassResult.store]⟩
        | parsed doc =>
          cases doc with
          | records rs =>
            simpa [import_meta_applications, hu, hf, PassResult.store] using
              meta_loop_extends rs store 0
          | badAt rs =>
            simpa [import_meta_applications, hu, hf, PassResult.store] using
              meta_loop_extends rs store 0
  · intro i p hi h1 h2
    have hne : eligible p = false := by simp [eligible, h1, h2]
    cases yum with
    | none =>
      simpa [update_summaries, get_yum_query, PassResult.store] using hi
    | some yumq =>
      simpa [update_summaries, get_yum_query, PassResult.store] using
        backfill_untouched tU yumq
          (if N = 0 then store.countP eligible else N) store 0 i p hi hne

theorem C6_monotonic_summaries_witness :
    ((update_summaries id (some emptyYum) 1 [⟨"a", "real"⟩]).store)[0]? =
      some ⟨"a", "real"⟩ :=
  (C6_monotonic_summaries id sessionA none (fun _ => .exn) (some emptyYum) 1
    [⟨"a", "real"⟩]).2.2 0 ⟨"a", "real"⟩ (by decide) (by decide) (by decide)

/-- C7: at most one Package per distinct name is preserved by every pass:
the two import passes insert a record only when by_name on the current
staged store finds nothing, so a store with pairwise-distinct names keeps
pairwise-distinct names (whether the pass returned or raised), and
update_summaries inserts nothing — its store has exactly the same name
sequence. -/
theorem C7_name_uniqueness (tU : String → String) (session : KojiSession)
    (url : Option String) (fetch : String → FetchOutcome)
    (yum : Option YumQuery) (N : Nat) (store : CatalogStore)
    (h : (store.map Package.name).Nodup) :
    ((import_koji_pkgs tU session store).store.map Package.name).Nodup ∧
    ((import_meta_applications url fetch store).store.map
      Package.name).Nodup ∧
    ((update_summaries tU yum N store).store.map Package.name) =
      store.map Package.name := by
  refine ⟨?_, ?_, ?_⟩
  · cases hl : session.listing with
    | error e => simpa [import_koji_pkgs, hl, PassResult.store] using h
    | ok packages =>
      simpa [import_koji_pkgs, hl] using
        koji_loop_nodup tU session.getPackageConfig packages store 0 h
  · cases url with
    | none => simpa [import_meta_applications, PassResult.store] using h
    | some u =>
      by_cases hu : u == ""
      · simpa [import_meta_applications, hu, PassResult.store] using h
      · cases hf : fetch u with
        | exn =>
          simpa [import_meta_applications, hu, hf, PassResult.store] using h
        | parsed doc =>
          cases doc with
          | records rs =>
            simpa [import_meta_applications, hu, hf, PassResult.store] using
              meta_loop_nodup rs store 0 h
          | badAt rs =>
            simpa [import_meta_applications, hu, hf, PassResult.store] using
              meta_loop_nodup rs store 0 h
  · cases yum with
    | none => simp [update_summaries, get_yum_query, PassResult.store]
    | some yumq =>
      simpa [update_summaries, get_yum_query, PassResult.store] using
        backfill_names tU yumq
          (if N = 0 then store.countP eligible else N) store 0

theorem C7_name_uniqueness_witness :
    ((import_koji_pkgs id sessionA [⟨"b", "x"⟩]).store.map
      Package.name).Nodup :=
  (C7_name_uniqueness id sessionA none (fun _ => .exn) none 0 [⟨"b", "x"⟩]
    (by decide)).1

/-- C8: when listing the build-system packages raises, the error
propagates uncaught out of import_koji_pkgs through main': the run aborts
before the later passes, commit is never issued, and the durable store is
exactly the starting one — no insert from the run survives. -/
theorem C8_fatal_abort (tU : String → String) (session : KojiSession)
    (yum : Option YumQuery) (N : Nat) (url : Option String)
    (fetch : String → FetchOutcome) (store : CatalogStore) (e : PyErr)
    (h : session.listing = .error e) :
    main' tU session yum N url fetch store = (store, some e) := by
  simp [main', import_koji_pkgs, h]

theorem C8_fatal_abort_witness :
    main' id ⟨.error PyErr.connectionError, fun _ _ => none⟩ none 0 none
      (fun _ => .exn) [⟨"a", "x"⟩] =
    ([⟨"a", "x"⟩], some PyErr.connectionError) :=
  C8_fatal_abort id ⟨.error PyErr.connectionError, fun _ _ => none⟩ none 0
    none (fun _ => .exn) [⟨"a", "x"⟩] PyErr.connectionError rfl

/-- C9: import_koji_pkgs is idempotent on the staged store: a second run
over the same listing, started from the store the first run left behind
(whether it returned or raised), leaves that store unchanged; and every
record the pass adds comes from a listed record whose bypass-tag status
is None — bypass-tagged records are inserted in neither run. -/
theorem C9_idempotent (tU : String → String) (session : KojiSession)
    (store : CatalogStore) :
    (import_koji_pkgs tU session
        ((import_koji_pkgs tU session store).store)).store =
      (import_koji_pkgs tU session store).store ∧
    (∀ (packages : List KojiPackage) (p : Package),
      session.listing = .ok packages →
      p ∈ (import_koji_pkgs tU session store).store →
      p ∈ store ∨ ∃ r, r ∈ packages ∧
        session.getPackageConfig tagbp r.package_id = none ∧
        p = ⟨tU r.package_name, ""⟩) := by
  constructor
  · cases hl : session.listing with
    | error e => simp [import_koji_pkgs, hl, PassResult.store]
    | ok packages =>
      simpa [import_koji_pkgs, hl] using
        koji_loop_store_idem tU session.getPackageConfig packages store 0 0
  · intro packages p hl hp
    simp [import_koji_pkgs, hl] at hp
    exact koji_loop_mem tU session.getPackageConfig packages store 0 p hp

theorem C9_idempotent_witness :
    ((import_koji_pkgs id sessionA
        ((import_koji_pkgs id sessionA []).store)).store =
      (import_koji_pkgs id sessionA []).store) ∧
    ((⟨"a", ""⟩ : Package) ∈ ([] : CatalogStore) ∨
      ∃ r, r ∈ [(⟨"a", 1⟩ : KojiPackage)] ∧
        sessionA.getPackageConfig tagbp r.package_id = none ∧
        (⟨"a", ""⟩ : Package) = ⟨id r.package_name, ""⟩) := by
  have h := C9_idempotent id sessionA []
  exact ⟨h.1, h.2 [⟨"a", 1⟩] ⟨"a", ""⟩ rfl (by decide)⟩

/-- C10: the curated pass applies no text normalization — every record it
adds is exactly some input record's name/summary pair, verbatim —
whereas import_koji_pkgs stores the to_unicode-normalized name; so for a name on
which normalization is not the identity, the curated pass and the
build-system pass store different names. -/
theorem C10_no_normalization (tU : String → String) (u : String)
    (fetch : String → FetchOutcome) (rs : List CuratedRecord)
    (store : CatalogStore) (name s2 : String) (pid : Nat)
    (cfg : Nat → Nat → Option Unit) :
    (¬ u = "" → fetch u = .parsed (.records rs) →
      ∀ p, p ∈ (import_meta_applications (some u) fetch store).store →
        p ∈ store ∨ ∃ r, r ∈ rs ∧ p = ⟨r.name, r.summary⟩) ∧
    (cfg tagbp pid = none →
      (import_koji_pkgs tU ⟨.ok [⟨name, pid⟩], cfg⟩ []).store.map
        Package.name = [tU name]) ∧
    ((import_meta_applications (some "u")
        (fun _ => .parsed (.records [⟨name, s2⟩])) []).store.map
      Package.name = [name]) ∧
    (¬ tU name = name → ¬ ([tU name] = ([name] : List String))) := by
  refine ⟨?_, ?_, ?_, ?_⟩
  · intro hu hf p hp
    have hu2 : (u == "") = false := by simpa using hu
    exact meta_loop_mem rs store 0 p
      (by simpa [import_meta_applications, hu2, hf, PassResult.store]
        using hp)
  · intro hcfg
    simp [import_koji_pkgs, koji_loop, hcfg, Package.by_name,
      PassResult.store]
  · simp [import_meta_applications, meta_loop, Package.by_name,
      PassResult.store]
  · intro hne heq
    exact hne (by simpa using heq)

theorem C10_no_normalization_witness :
    ((import_koji_pkgs (fun _ => "b") ⟨.ok [⟨"a", 1⟩], fun _ _ => none⟩
        []).store.map Package.name = ["b"]) ∧
    ¬ (["b"] = (["a"] : List String)) := by
  have h := C10_no_normalization (fun _ => "b") "u"
    (fun _ => .parsed (.records [])) [] [] "a" "s" 1 (fun _ _ => none)
  exact ⟨h.2.1 rfl, h.2.2.2 (by decide)⟩
